import Mathlib

/-!
Verification of the pystockfish UCI driver (`src/pystockfish.py`).

The development shallowly embeds the Python source: strings are Lean
`String`s, Python `dict`s are insertion-ordered association lists,
Python exceptions (`ValueError`, `IndexError`) are explicit error
values, and the external `python-chess` collaborator is a parameter
(a `ChessRules` record) specified only at its interface, as in §6 of
the design document.
-/

/-- Python exceptions that the embedded code can raise. -/
inductive PyErr where
  | valueError
  | indexError
deriving DecidableEq

instance {ε α : Type} [DecidableEq ε] [DecidableEq α] : DecidableEq (Except ε α)
  | .error a, .error b =>
      decidable_of_iff (a = b) ⟨fun h => h ▸ rfl, fun h => Except.error.inj h⟩
  | .error _, .ok _ => isFalse (fun h => Except.noConfusion h)
  | .ok _, .error _ => isFalse (fun h => Except.noConfusion h)
  | .ok a, .ok b =>
      decidable_of_iff (a = b) ⟨fun h => h ▸ rfl, fun h => Except.ok.inj h⟩

/-- Pattern `pat` occurs at the head of `s` (character lists). -/
def leadsWith : List Char → List Char → Bool
  | [], _ => true
  | _ :: _, [] => false
  | a :: as, b :: bs => a = b && leadsWith as bs

/-- First character index at which `pat` occurs in `s`, if any. -/
def findSub (pat : List Char) : List Char → Option Nat
  | [] => if leadsWith pat [] then some 0 else none
  | c :: rest =>
      if leadsWith pat (c :: rest) then some 0
      else (findSub pat rest).map (· + 1)

/-- Python `s.find(pat)`, with `none` standing for the `-1` result. -/
def pyFind (s pat : String) : Option Nat :=
  findSub pat.toList s.toList

/-- Python `s.find(pat) >= 0`: substring containment test. -/
def pyContains (s pat : String) : Bool :=
  (pyFind s pat).isSome

/-- Python `s.strip()`: whitespace removed from both ends. -/
def pyStrip (s : String) : String :=
  ⟨((s.toList.dropWhile Char.isWhitespace).reverse.dropWhile Char.isWhitespace).reverse⟩

/-- Segments of a character list split at every space, empty segments kept. -/
def splitSpace : List Char → List (List Char)
  | [] => [[]]
  | c :: cs =>
      if c = ' ' then [] :: splitSpace cs
      else
        match splitSpace cs with
        | seg :: rest => (c :: seg) :: rest
        | [] => [[c]]

/-- Python `s.split(' ')`: split on every single space, keeping empties. -/
def pySplit (s : String) : List String :=
  (splitSpace s.toList).map (fun cs => ⟨cs⟩)

/-- Python character indexing `s[i]` (raises `IndexError` when out of range;
the source never indexes with a negative number here). -/
def pyCharAt (s : String) (i : Nat) : Except PyErr Char :=
  match s.toList.get? i with
  | some c => .ok c
  | none => .error .indexError

/-- Python `int(c)` on a one-character string: the digit value, or
`ValueError` on any non-digit character such as `-`. -/
def pyIntOfChar (c : Char) : Except PyErr Int :=
  if c.isDigit then .ok ((c.toNat : Int) - 48) else .error .valueError

/-- Decimal value of a digit list. -/
def digitsVal (ds : List Char) : Int :=
  ds.foldl (fun a c => a * 10 + ((c.toNat : Int) - 48)) 0

/-- Python `int(s)` on a token: optional sign followed by digits, else
`ValueError` (modelled as `none`). -/
def pyIntStr (s : String) : Option Int :=
  match s.toList with
  | '-' :: ds => if ds ≠ [] && ds.all Char.isDigit then some (-(digitsVal ds)) else none
  | '+' :: ds => if ds ≠ [] && ds.all Char.isDigit then some (digitsVal ds) else none
  | ds => if ds ≠ [] && ds.all Char.isDigit then some (digitsVal ds) else none

/-- Values stored in Python dicts and object attributes in the source:
ints, strings, booleans, and (by the slip on lines 153-154) tuples of ints. -/
inductive PyVal where
  | int (n : Int)
  | str (s : String)
  | bool (b : Bool)
  | tuple (l : List Int)
deriving DecidableEq

/-- Lookup in an insertion-ordered dict (Python `d[k]` / attribute read). -/
def dget : List (String × PyVal) → String → Option PyVal
  | [], _ => none
  | p :: ps, k => if p.1 = k then some p.2 else dget ps k

/-- Update of an insertion-ordered dict (Python `d[k] = v` / `setattr`):
replaces the binding in place if the key exists, otherwise appends. -/
def dset : List (String × PyVal) → String → PyVal → List (String × PyVal)
  | [], k, v => [(k, v)]
  | p :: ps, k, v => if p.1 = k then (k, v) :: ps else p :: dset ps k v

/-- One engine search answer, as `Engine.best_move` returns it:
the chosen move, the info line preceding `bestmove`, and the ponder field. -/
structure SearchResult where
  move : String
  info : String
  ponder : String
deriving DecidableEq

/-- The orchestrator state: the shared move history and the recorded
winner name (`Match.moves`, `Match.winner`). -/
structure MatchState where
  moves : List String
  winner : Option String
deriving DecidableEq

/-- Lines 74-82 of `Match.move`: `mateloc = info.find('mate')`;
`matenum = int(info[mateloc+5])`; positive picks the active name,
negative the inactive name, otherwise nobody.  Raising propagates. -/
def mateWinner (info : String) (act inact : String) : Except PyErr (Option String) :=
  match pyFind info "mate" with
  | none => .ok none
  | some loc =>
      match pyCharAt info (loc + 5) with
      | .error e => .error e
      | .ok c =>
          match pyIntOfChar c with
          | .error e => .error e
          | .ok matenum =>
              .ok (if matenum > 0 then some act
                   else if matenum < 0 then some inact else none)

/-- `Match.move` (lines 51-83), with the active engine's answer supplied
as `resp`.  Returns the updated state plus either the boolean result or
the Python exception that escapes; the appended move survives an
exception because `self.moves.append` precedes the mate parsing. -/
def matchMove (white black : String) (st : MatchState) (resp : SearchResult) :
    MatchState × Except PyErr Bool :=
  if st.moves.length > 200 then (st, .ok false)
  else
    let act := if st.moves.length % 2 = 1 then black else white
    let inact := if st.moves.length % 2 = 1 then white else black
    let moves1 := st.moves ++ [resp.move]
    if resp.ponder ≠ "(none)" then ({ moves := moves1, winner := st.winner }, .ok true)
    else
      match mateWinner resp.info act inact with
      | .error e => ({ moves := moves1, winner := st.winner }, .error e)
      | .ok none => ({ moves := moves1, winner := st.winner }, .ok false)
      | .ok (some w) => ({ moves := moves1, winner := some w }, .ok false)

/-- Repeated `Match.move` calls, one per supplied engine answer. -/
def matchRun (white black : String) (st : MatchState) : List SearchResult → MatchState
  | [] => st
  | r :: rs => matchRun white black (matchMove white black st r).1 rs

/-- `Engine.is_ready` (lines 268-280): the read loop, already past the
`isready` send.  Input is the stream of raw lines `readline` will hand
back; each is stripped, the loop stops at `readyok` and returns the
previous stripped line.  `none` models the loop never returning (it
would block on `readline` forever). -/
def isReadyLoop : List String → String → Option String
  | [], _ => none
  | l :: ls, lastline =>
      if pyStrip l = "readyok" then some lastline else isReadyLoop ls (pyStrip l)

/-- `Engine.is_ready` run against a stream of raw engine lines. -/
def is_ready (lines : List String) : Option String :=
  isReadyLoop lines ""

/-- `Engine.best_move` (lines 225-240): the read loop after `go`.
Returns `(move, info, ponder)` for the first `bestmove` line, the
`IndexError` that `split_text[1]` raises when the line is bare
`bestmove`, or `none` when the stream ends without a `bestmove` line. -/
def bestMoveLoop : List String → String → Option (Except PyErr (String × String × String))
  | [], _ => none
  | l :: ls, last_line =>
      if (pySplit (pyStrip l)).headD "" = "bestmove" then
        match (pySplit (pyStrip l)).get? 1 with
        | none => some (.error .indexError)
        | some mv =>
            some (.ok (mv, last_line,
              if 4 ≤ (pySplit (pyStrip l)).length then ((pySplit (pyStrip l)).get? 3).getD ""
              else "(none)"))
      else bestMoveLoop ls (pyStrip l)

/-- `Engine.best_move` run against a stream of raw engine lines. -/
def best_move (lines : List String) : Option (Except PyErr (String × String × String)) :=
  bestMoveLoop lines ""

/-- Outcome of the `try` block of `Engine.best_moves` (lines 252-256):
the parsed `depth` and `multipv` numbers, a caught `ValueError`
(`continue`), or an uncaught `IndexError`. -/
inductive TryDepthPv where
  | ok (d pv : Int)
  | valSkip
  | crash
deriving DecidableEq

/-- Lines 253-254: `depth = int(split[split.index('depth')+1])` then
`pv_num = int(split[split.index('multipv')+1])`.  A failing `.index`
or `int` raises `ValueError` (caught); a missing value slot raises
`IndexError` (uncaught). -/
def parseDepthPv (split_text : List String) : TryDepthPv :=
  match split_text.findIdx? (fun t => t = "depth") with
  | none => .valSkip
  | some di =>
      match split_text.get? (di + 1) with
      | none => .crash
      | some ds =>
          match pyIntStr ds with
          | none => .valSkip
          | some d =>
              match split_text.findIdx? (fun t => t = "multipv") with
              | none => .valSkip
              | some mi =>
                  match split_text.get? (mi + 1) with
                  | none => .crash
                  | some ms =>
                      match pyIntStr ms with
                      | none => .valSkip
                      | some pv => .ok d pv

/-- `Engine.best_moves` (lines 242-266), with the `for i in
range(1, n+1)` / inner `while` pair fused into one recursion on the
line stream: `i` is the rank currently sought, `acc` the moves
collected so far (reversed), `n` the `MultiPV` attribute and `sd` the
configured depth.  `none` models blocking on an exhausted stream. -/
def bmRun (sd n : Int) : List String → Int → List String → Option (Except PyErr (List String))
  | [], i, acc => if i > n then some (.ok acc.reverse) else none
  | l :: ls, i, acc =>
      if i > n then some (.ok acc.reverse)
      else if (pySplit (pyStrip l)).headD "" = "info" then
        match parseDepthPv (pySplit (pyStrip l)) with
        | .crash => some (.error .indexError)
        | .valSkip => bmRun sd n ls i acc
        | .ok d pv =>
            if pv = i ∧ d = sd then
              match (pySplit (pyStrip l)).findIdx? (fun t => t = "pv") with
              | none => some (.error .valueError)
              | some pi =>
                  match (pySplit (pyStrip l)).get? (pi + 1) with
                  | none => some (.error .indexError)
                  | some mv => bmRun sd n ls (i + 1) (mv :: acc)
            else bmRun sd n ls i acc
      else if (pySplit (pyStrip l)).headD "" = "bestmove" then some (.ok acc.reverse)
      else bmRun sd n ls i acc

/-- `Engine.best_moves` run against a stream of raw engine lines. -/
def best_moves (sd n : Int) (lines : List String) : Option (Except PyErr (List String)) :=
  bmRun sd n lines 1 []

/-- `Engine.set_option` (lines 173-179) acting on the engine object's
attribute map.  `diag` is the line `is_ready` returned after the
`setoption` command: when it contains `No such` the function only
prints, otherwise `setattr(self, option_name, value)` records the
value under exactly that name.  No exception is ever raised.
(Named `setOption` because `set_option` is reserved in Lean.) -/
def setOption (attrs : List (String × PyVal)) (option_name : String) (value : PyVal)
    (diag : String) : List (String × PyVal) :=
  if pyContains diag "No such" then attrs else dset attrs option_name value

/-- The `base_param` dict literal of `Engine.__init__` (lines 137-150),
with the two `randint` draws injected as `r1`, `r2` when `rand` is set;
the trailing commas on lines 153-154 make the stored values one-element
tuples. -/
def baseParam (rand : Bool) (r1 r2 : Int) : List (String × PyVal) :=
  let d : List (String × PyVal) :=
    [("Write Debug Log", .str "false"),
     ("Contempt Factor", .int 0),
     ("Contempt", .int 0),
     ("Min Split Depth", .int 0),
     ("Threads", .int 1),
     ("Hash", .int 16),
     ("MultiPV", .int 1),
     ("Skill Level", .int 20),
     ("Move Overhead", .int 30),
     ("Minimum Thinking Time", .int 20),
     ("Slow Mover", .int 80),
     ("UCI_Chess960", .str "false")]
  if rand then dset (dset d "Contempt" (.tuple [r1])) "Contempt Factor" (.tuple [r2]) else d

/-- `base_param.update(param)` (line 156): the caller's ordered override
map is merged in, the caller winning on key conflict. -/
def mergedParam (rand : Bool) (r1 r2 : Int) (callerParam : List (String × PyVal)) :
    List (String × PyVal) :=
  callerParam.foldl (fun d p => dset d p.1 p.2) (baseParam rand r1 r2)

/-- Observable events of `Engine.__init__`, in program order:
plain attribute assignments, completed `set_option` calls (send,
handshake and record decision included), and the `self.param`
assignment with its payload. -/
inductive InitEvent where
  | assignAttr (name : String)
  | setOptionCall (name : String) (v : PyVal)
  | assignParam (d : List (String × PyVal))
deriving DecidableEq

/-- The event trace of `Engine.__init__` (lines 124-160): attribute
assignments, the Ponder-disabling `set_option` when pondering is off
(line 135), `self.param = base_param` (line 157, after the merge), the
per-entry `set_option` loop (lines 158-159), and the board assignment. -/
def initTrace (ponder : Bool) (callerParam : List (String × PyVal)) (rand : Bool)
    (r1 r2 : Int) : List InitEvent :=
  [.assignAttr "depth", .assignAttr "move_time", .assignAttr "ponder"]
    ++ (if ponder then [] else [.setOptionCall "Ponder" (.bool false)])
    ++ [.assignParam (mergedParam rand r1 r2 callerParam)]
    ++ (mergedParam rand r1 r2 callerParam).map (fun p => .setOptionCall p.1 p.2)
    ++ [.assignAttr "board"]

/-- Taxonomy of error conditions from §7 of the design document.
`illegalMove` is what the chess collaborator's rejection surfaces as;
the other three are transport failures of the process channel. -/
inductive EngineError where
  | illegalMove
  | spawnFailure
  | processTimeout
  | processExited
deriving DecidableEq

/-- Interface of the external chess-rules collaborator (python-chess),
exactly the boundary given in §6: legality, SAN conversion, SAN push,
direct move application, and FEN rendering.  `toSAN`/`pushSAN` return
`none` where `board.san` / `board.push_san` would raise. -/
structure ChessRules (B S : Type) where
  legal : B → String → Bool
  toSAN : B → String → Option S
  pushSAN : B → S → Option B
  applyMove : B → String → B
  fen : B → String

/-- The per-move loop of `Engine.set_position` (lines 195-197):
`san = self.board.san(chess.Move.from_uci(move)); self.board.push_san(san)`.
A collaborator rejection stops the loop, keeps the board as mutated so
far (no rollback) and surfaces `illegalMove`. -/
def applySans {B S : Type} (R : ChessRules B S) : B → List String → B × Option EngineError
  | b, [] => (b, none)
  | b, m :: ms =>
      match R.toSAN b m with
      | none => (b, some .illegalMove)
      | some s =>
          match R.pushSAN b s with
          | none => (b, some .illegalMove)
          | some b2 => applySans R b2 ms

/-- `Engine._move_list_to_str` (lines 216-223). -/
def moveListToStr (moves : List String) : String :=
  pyStrip (moves.foldl (fun movestr h => movestr ++ h ++ " ") "")

/-- `Engine.set_position` (lines 188-198): the `position` command is
built from the current FEN and the whole batch and sent first, then
each move is converted and pushed on the tracked board.  Returns the
sent command, the board as left behind, and the error if a move was
rejected. -/
def set_position {B S : Type} (R : ChessRules B S) (b : B) (moves : List String) :
    String × B × Option EngineError :=
  let cmd := "position fen " ++ R.fen b ++ " moves " ++ moveListToStr moves
  let r := applySans R b moves
  (cmd, r.1, r.2)

/-- Independent re-application of a move batch through the collaborator
alone (`applyMove` folded), never touching the client. -/
def applyAll {B S : Type} (R : ChessRules B S) : B → List String → B
  | b, [] => b
  | b, m :: ms => applyAll R (R.applyMove b m) ms

/-- Every move of the batch is legal in sequence from `b`. -/
def legalSeq {B S : Type} (R : ChessRules B S) : B → List String → Bool
  | _, [] => true
  | b, m :: ms => R.legal b m && legalSeq R (R.applyMove b m) ms

/-- Written from the spec's words, for comparison with `best_moves`:
the move a line "announces for rank `i` at depth `sd`" — the line is an
`info` line whose `depth` value is `sd`, whose `multipv` value is `i`,
and the move is the token after `pv`. -/
def specAnnouncedMove (sd i : Int) (l : String) : Option String :=
  if (pySplit (pyStrip l)).headD "" = "info" then
    match (pySplit (pyStrip l)).findIdx? (fun t => t = "depth"),
        (pySplit (pyStrip l)).findIdx? (fun t => t = "multipv"),
        (pySplit (pyStrip l)).findIdx? (fun t => t = "pv") with
    | some di, some mi, some pi =>
        match ((pySplit (pyStrip l)).get? (di + 1)).bind pyIntStr,
            ((pySplit (pyStrip l)).get? (mi + 1)).bind pyIntStr,
            (pySplit (pyStrip l)).get? (pi + 1) with
        | some d, some r, some mv => if d = sd ∧ r = i then some mv else none
        | _, _, _ => none
    | _, _, _ => none
  else none

/-- Written from the spec's words (as amended), for comparison with
`best_moves`: scanning the stream once, collect for each rank
`i = 1, 2, ...` up to `n` the move of the first line that announces
rank `i` at depth `sd` and comes after the line chosen for rank
`i - 1`, stopping early at a `bestmove` line; `none` when the stream
ends with ranks still unfilled. -/
def specCollect (sd n : Int) : List String → Int → Option (List String)
  | [], i => if i > n then some [] else none
  | l :: ls, i =>
      if i > n then some []
      else if (pySplit (pyStrip l)).headD "" = "bestmove" then some []
      else
        match specAnnouncedMove sd i l with
        | some mv => (specCollect sd n ls (i + 1)).map (fun t => mv :: t)
        | none => specCollect sd n ls i

/-- A miniature stand-in for the chess collaborator, used to witness the
collaborator-parametric theorems at a concrete input: a board is the
list of moves played, every move other than the literal `"bad"` is
legal, and SAN conversion is the identity. -/
def toyRules : ChessRules (List String) String where
  legal := fun _ m => decide (m ≠ "bad")
  toSAN := fun _ m => if m = "bad" then none else some m
  pushSAN := fun b s => some (b ++ [s])
  applyMove := fun b m => b ++ [m]
  fen := fun b => String.join b

theorem matchMove_moves (white black : String) (st : MatchState) (r : SearchResult) :
    (matchMove white black st r).1.moves = st.moves ∨
      (matchMove white black st r).1.moves = st.moves ++ [r.move] := by
  unfold matchMove
  split
  · exact Or.inl rfl
  · dsimp only
    split
    · exact Or.inr rfl
    · split <;> exact Or.inr rfl

theorem matchMove_len (white black : String) (st : MatchState) (r : SearchResult)
    (h : st.moves.length ≤ 201) : (matchMove white black st r).1.moves.length ≤ 201 := by
  by_cases h2 : st.moves.length > 200
  · have : (matchMove white black st r).1 = st := by
      unfold matchMove
      rw [if_pos h2]
    rw [this]
    exact h
  · rcases matchMove_moves white black st r with hm | hm <;> rw [hm]
    · exact h
    · simp only [List.length_append, List.length_cons, List.length_nil]
      omega

theorem matchRun_len (white black : String) (resps : List SearchResult) :
    ∀ st : MatchState, st.moves.length ≤ 201 →
      (matchRun white black st resps).moves.length ≤ 201 := by
  induction resps with
  | nil => intro st h; exact h
  | cons r rs ih =>
      intro st h
      exact ih _ (matchMove_len white black st r h)

theorem dget_dset_self (d : List (String × PyVal)) (k : String) (v : PyVal) :
    dget (dset d k v) k = some v := by
  induction d with
  | nil => simp [dset, dget]
  | cons p ps ih =>
      by_cases h : p.1 = k
      · simp [dset, h, dget]
      · simp [dset, h, dget, ih]

theorem dget_dset_ne (d : List (String × PyVal)) (k k2 : String) (v : PyVal) (h : k2 ≠ k) :
    dget (dset d k v) k2 = dget d k2 := by
  have hne : ¬k = k2 := fun hkk => h hkk.symm
  induction d with
  | nil => simp [dset, dget, hne]
  | cons p ps ih =>
      obtain ⟨pk, pv⟩ := p
      by_cases hp : pk = k
      · subst hp
        simp [dset, dget, hne]
      · simp [dset, dget, hp, ih]

/-- C1: `Match.move`'s mate parsing reads a single character,
`int(info[mateloc+5])`.  At the claim's own example `mate -2` that
character is `-`, so `int` raises `ValueError` and no winner is
recorded — the `matenum < 0` branch that would crown the inactive role
is unreachable.  Positive single-digit distances and the absent-token
draw case behave as the claim says. -/
theorem mate_parse_negative_crashes :
    matchMove "white" "black" ⟨[], none⟩
        ⟨"d8h4", "info depth 10 score mate -2 nodes 4711", "(none)"⟩
      = ({ moves := ["d8h4"], winner := none }, .error .valueError) ∧
    matchMove "white" "black" ⟨[], none⟩
        ⟨"g1f3", "info depth 23 score mate 3 pv g1f3", "(none)"⟩
      = ({ moves := ["g1f3"], winner := some "white" }, .ok false) ∧
    matchMove "white" "black" ⟨[], none⟩
        ⟨"g1f3", "info depth 23 score cp 13 pv g1f3", "(none)"⟩
      = ({ moves := ["g1f3"], winner := none }, .ok false) := by
  refine ⟨?_, ?_, ?_⟩ <;> rfl

/-- C2: with `rand=True` the merged option map stores one-element
tuples for `Contempt` and `Contempt Factor` (trailing commas on lines
153-154), never integers, contradicting the class docstring's "set to
a random value between rand_min and rand_max". -/
theorem contempt_stored_as_tuple (r1 r2 : Int) :
    dget (mergedParam true r1 r2 []) "Contempt" = some (.tuple [r1]) ∧
    dget (mergedParam true r1 r2 []) "Contempt Factor" = some (.tuple [r2]) ∧
    (∀ k : Int, PyVal.tuple [r1] ≠ PyVal.int k) ∧
    (∀ k : Int, PyVal.tuple [r2] ≠ PyVal.int k) := by
  refine ⟨rfl, rfl, ?_, ?_⟩ <;> exact fun k h => PyVal.noConfusion h

/-- C4: `set_option` raises nothing; when the handshake's trailing
diagnostic contains `No such` the attribute map is left unchanged (the
misspelled option is not recorded), and otherwise the value is
recorded under exactly the name sent. -/
theorem setOption_rejected_or_recorded (attrs : List (String × PyVal)) (nm : String)
    (v : PyVal) (diag : String) :
    (pyContains diag "No such" = true → setOption attrs nm v diag = attrs) ∧
    (pyContains diag "No such" = false →
      dget (setOption attrs nm v diag) nm = some v) := by
  constructor
  · intro h
    simp [setOption, h]
  · intro h
    simp [setOption, h, dget_dset_self]

theorem setOption_rejected_or_recorded_witness :
    setOption [] "Skill Leveel" (.int 20) "No such option: Skill Leveel" = [] ∧
    dget (setOption [] "Skill Level" (.int 20) "") "Skill Level" = some (.int 20) :=
  ⟨(setOption_rejected_or_recorded [] "Skill Leveel" (.int 20)
      "No such option: Skill Leveel").1 (by decide),
   (setOption_rejected_or_recorded [] "Skill Level" (.int 20) "").2 (by decide)⟩

/-- C6: the move history of a match never exceeds 201 entries however
often `move` is called, and a call entered with more than 200 recorded
moves returns `False` leaving the state (history and winner) untouched,
so the match ends as a draw. -/
theorem move_count_ceiling (white black : String) (resps : List SearchResult)
    (st : MatchState) (r : SearchResult) (h : st.moves.length > 200) :
    (matchRun white black ⟨[], none⟩ resps).moves.length ≤ 201 ∧
    matchMove white black st r = (st, .ok false) := by
  constructor
  · exact matchRun_len white black resps ⟨[], none⟩ (by simp)
  · unfold matchMove
    rw [if_pos h]

theorem move_count_ceiling_witness :
    (matchRun "w" "b" ⟨[], none⟩ [⟨"e2e4", "info depth 1", "e7e5"⟩]).moves.length ≤ 201 ∧
    matchMove "w" "b" ⟨List.replicate 201 "a1a2", none⟩ ⟨"e2e4", "info depth 1", "e7e5"⟩
      = (⟨List.replicate 201 "a1a2", none⟩, .ok false) :=
  move_count_ceiling "w" "b" _ _ _
    (by show (List.replicate 201 "a1a2").length > 200
        rw [List.length_replicate]
        omega)

/-- C10 counterexample: with the default `ponder=False`, the
Ponder-disabling `set_option` call (trace index 3) completes — and is
acknowledged — before `self.param` is assigned (trace index 4), so
`param` is not populated "before any option is acknowledged". -/
theorem param_populated_after_ponder_call :
    (initTrace false [] false 0 0).get? 3
      = some (.setOptionCall "Ponder" (.bool false)) ∧
    (initTrace false [] false 0 0).get? 4
      = some (.assignParam (mergedParam false 0 0 [])) := by
  decide

theorem getLastD_cons {α : Type} (x : α) (xs : List α) (a : α) :
    ((x :: xs).getLast?).getD a = (xs.getLast?).getD x := by
  cases xs <;> simp [List.getLast?]

theorem isReadyLoop_app (r : String) (rest : List String) (hr : pyStrip r = "readyok") :
    ∀ (pre : List String) (acc : String), (∀ l ∈ pre, pyStrip l ≠ "readyok") →
      isReadyLoop (pre ++ r :: rest) acc =
        some (((pre.map pyStrip).getLast?).getD acc) := by
  intro pre
  induction pre with
  | nil =>
      intro acc _
      simp [isReadyLoop, hr]
  | cons l ls ih =>
      intro acc hpre
      have hl : pyStrip l ≠ "readyok" := hpre l (List.mem_cons_self l ls)
      have step : isReadyLoop ((l :: ls) ++ r :: rest) acc = isReadyLoop (ls ++ r :: rest) (pyStrip l) := by
        simp [isReadyLoop, hl]
      rw [step, ih (pyStrip l) (fun x hx => hpre x (List.mem_cons_of_mem l hx))]
      rw [List.map_cons, getLastD_cons]

theorem isReadyLoop_none :
    ∀ (ls : List String) (acc : String), (∀ l ∈ ls, pyStrip l ≠ "readyok") →
      isReadyLoop ls acc = none := by
  intro ls
  induction ls with
  | nil => intro acc _; rfl
  | cons l ls2 ih =>
      intro acc h
      have hl : pyStrip l ≠ "readyok" := h l (List.mem_cons_self l ls2)
      simp only [isReadyLoop, hl, if_neg hl, ite_false]
      exact ih (pyStrip l) (fun x hx => h x (List.mem_cons_of_mem l hx))

/-- C7: on a stream whose first `readyok` line is `r` (after the
newline-stripping every read performs), `is_ready` returns, it returns
only once that line has been read, and it hands back the stripped line
read just before it (the empty string when `readyok` came first); on a
stream with no `readyok` line it never returns (it stays blocked in
`readline`). -/
theorem is_ready_last_line_before_readyok (pre rest ls : List String) (r : String)
    (hr : pyStrip r = "readyok") (hpre : ∀ l ∈ pre, pyStrip l ≠ "readyok")
    (hls : ∀ l ∈ ls, pyStrip l ≠ "readyok") :
    is_ready (pre ++ r :: rest) = some (((pre.map pyStrip).getLast?).getD "") ∧
    is_ready ls = none :=
  ⟨isReadyLoop_app r rest hr pre "" hpre, isReadyLoop_none ls "" hls⟩

theorem is_ready_last_line_before_readyok_witness :
    is_ready ["No such option: Skill Leveel", "readyok"] = some "No such option: Skill Leveel" ∧
    is_ready ["info foo"] = none := by
  have h := is_ready_last_line_before_readyok ["No such option: Skill Leveel"] [] ["info foo"]
    "readyok" (by decide) (by decide) (by decide)
  exact ⟨h.1.trans (by decide), h.2⟩

theorem bestMoveLoop_found (l : String) (ts : List String) (rest : List String)
    (hl : pySplit (pyStrip l) = "bestmove" :: ts) (hts : ts ≠ []) :
    ∀ (pre : List String) (acc : String),
      (∀ p ∈ pre, (pySplit (pyStrip p)).headD "" ≠ "bestmove") →
      bestMoveLoop (pre ++ l :: rest) acc =
        some (.ok (ts.headD "", ((pre.map pyStrip).getLast?).getD acc,
          if 3 ≤ ts.length then (ts.get? 2).getD "" else "(none)")) := by
  intro pre
  induction pre with
  | nil =>
      intro acc _
      obtain ⟨a, as, rfl⟩ : ∃ a as, ts = a :: as := by
        cases ts with
        | nil => exact absurd rfl hts
        | cons a as => exact ⟨a, as, rfl⟩
      have hhead : (pySplit (pyStrip l)).headD "" = "bestmove" := by rw [hl]; rfl
      have hget1 : (pySplit (pyStrip l)).get? 1 = some a := by rw [hl]; rfl
      simp only [List.nil_append, bestMoveLoop, hhead, if_pos, hget1, hl]
      have hlen : (4 ≤ ("bestmove" :: a :: as : List String).length) ↔
          (3 ≤ (a :: as : List String).length) := by
        simp only [List.length_cons]
        omega
      by_cases hc : 3 ≤ (a :: as : List String).length
      · rw [if_pos (hlen.mpr hc), if_pos hc]
        rfl
      · rw [if_neg (fun hx => hc (hlen.mp hx)), if_neg hc]
        rfl
  | cons p ps ih =>
      intro acc hpre
      have hp : (pySplit (pyStrip p)).headD "" ≠ "bestmove" := hpre p (List.mem_cons_self p ps)
      have step : bestMoveLoop ((p :: ps) ++ l :: rest) acc =
          bestMoveLoop (ps ++ l :: rest) (pyStrip p) := by
        simp only [List.cons_append, bestMoveLoop, hp, if_neg hp, ite_false]
        rfl
      rw [step, ih (pyStrip p) (fun x hx => hpre x (List.mem_cons_of_mem p hx))]
      rw [List.map_cons, getLastD_cons]

/-- C3 amended: when the first `bestmove` line of the stream carries the
trailing tokens `ts` (at least one), `best_move` returns the first
trailing token as the move, the previous stripped line as the info
line, and as ponder the third trailing token when there are at least
three trailing tokens after `bestmove`, the `"(none)"` marker
otherwise. -/
theorem best_move_token_fields (pre rest : List String) (l : String) (ts : List String)
    (hl : pySplit (pyStrip l) = "bestmove" :: ts) (hts : ts ≠ [])
    (hpre : ∀ p ∈ pre, (pySplit (pyStrip p)).headD "" ≠ "bestmove") :
    best_move (pre ++ l :: rest) =
      some (.ok (ts.headD "", ((pre.map pyStrip).getLast?).getD "",
        if 3 ≤ ts.length then (ts.get? 2).getD "" else "(none)")) :=
  bestMoveLoop_found l ts rest hl hts pre "" hpre

theorem best_move_token_fields_witness :
    best_move ["info x", "bestmove e2e4 ponder e7e5"] = some (.ok ("e2e4", "info x", "e7e5")) := by
  have h := best_move_token_fields ["info x"] [] "bestmove e2e4 ponder e7e5"
    ["e2e4", "ponder", "e7e5"] (by decide) (by decide) (by decide)
  exact h.trans (by decide)

/-- C3 counterexample: the line `bestmove e2e4 ponder` has exactly two
trailing tokens after `bestmove` — not fewer than two — yet `best_move`
returns the `"(none)"` marker, because the source tests
`len(split_text) >= 4` (at least three trailing tokens); so the ponder
field is not "`(none)` exactly when fewer than two trailing tokens,
else the second trailing token". -/
theorem best_move_two_trailing_tokens :
    best_move ["bestmove e2e4 ponder"] = some (.ok ("e2e4", "", "(none)")) ∧
    ((pySplit (pyStrip "bestmove e2e4 ponder")).drop 1).length = 2 ∧ ¬(2 < 2) := by
  refine ⟨by decide, by decide, by decide⟩

/-- C10 amended: an accepted `set_option` records the value under
exactly the option name and changes no other attribute (so accepting an
option named like an internal field overwrites that field, and `param`
is only ever touched by an option literally named `param`); in
`__init__`, `self.param` is assigned exactly once, carrying the entire
merged map, positioned before every option call of the merged map —
only the Ponder-disabling call can precede it. -/
theorem setOption_frame_and_param_once (attrs : List (String × PyVal)) (nm : String)
    (v : PyVal) (diag : String) (pond rand : Bool) (cp : List (String × PyVal))
    (r1 r2 : Int) (hacc : pyContains diag "No such" = false) :
    dget (setOption attrs nm v diag) nm = some v ∧
    (∀ m, m ≠ nm → ∀ d2, dget (setOption attrs nm v d2) m = dget attrs m) ∧
    (∃ A B2, initTrace pond cp rand r1 r2
        = A ++ .assignParam (mergedParam rand r1 r2 cp) :: B2 ∧
      (∀ n2 w, InitEvent.setOptionCall n2 w ∈ A → n2 = "Ponder") ∧
      (∀ d, InitEvent.assignParam d ∉ A) ∧
      (∀ d, InitEvent.assignParam d ∉ B2) ∧
      (∀ n2 w, InitEvent.setOptionCall n2 w ∈ B2 → (n2, w) ∈ mergedParam rand r1 r2 cp)) := by
  refine ⟨?_, ?_, ?_⟩
  · simp only [setOption, hacc, Bool.false_eq_true, if_false, ite_false]
    exact dget_dset_self attrs nm v
  · intro m hm d2
    by_cases h2 : pyContains d2 "No such"
    · simp [setOption, h2]
    · simp only [setOption, h2, Bool.false_eq_true, if_false, ite_false]
      exact dget_dset_ne attrs nm m v hm
  · refine ⟨[.assignAttr "depth", .assignAttr "move_time", .assignAttr "ponder"]
        ++ (if pond then [] else [.setOptionCall "Ponder" (.bool false)]),
      (mergedParam rand r1 r2 cp).map (fun p => .setOptionCall p.1 p.2)
        ++ [.assignAttr "board"], ?_, ?_, ?_, ?_, ?_⟩
    · simp [initTrace]
    · intro n2 w hmem
      rcases List.mem_append.mp hmem with hmem2 | hmem2
      · simp at hmem2
      · by_cases hp : pond
        · rw [if_pos hp] at hmem2
          simp at hmem2
        · rw [if_neg hp] at hmem2
          rcases List.mem_singleton.mp hmem2 with h3
          exact (InitEvent.setOptionCall.inj h3.symm).1.symm
    · intro d hmem
      rcases List.mem_append.mp hmem with hmem2 | hmem2
      · simp at hmem2
      · by_cases hp : pond
        · rw [if_pos hp] at hmem2
          simp at hmem2
        · rw [if_neg hp] at hmem2
          have h3 := List.mem_singleton.mp hmem2
          exact InitEvent.noConfusion h3
    · intro d hmem
      rcases List.mem_append.mp hmem with hmem2 | hmem2
      · rcases List.mem_map.mp hmem2 with ⟨p2, _, h3⟩
        exact InitEvent.noConfusion h3
      · have h3 := List.mem_singleton.mp hmem2
        exact InitEvent.noConfusion h3
    · intro n2 w hmem
      rcases List.mem_append.mp hmem with hmem2 | hmem2
      · rcases List.mem_map.mp hmem2 with ⟨p2, hp2, h3⟩
        obtain ⟨h4, h5⟩ := InitEvent.setOptionCall.inj h3.symm
        have : (n2, w) = p2 := by rw [h4, h5]
        rw [this]
        exact hp2
      · have h3 := List.mem_singleton.mp hmem2
        exact InitEvent.noConfusion h3

theorem setOption_frame_witness :
    dget (setOption [] "MultiPV" (.int 1) "") "MultiPV" = some (.int 1) :=
  (setOption_frame_and_param_once [] "MultiPV" (.int 1) "" false false [] 0 0 (by decide)).1

theorem applySans_legal {B S : Type} (R : ChessRules B S)
    (hR : ∀ b m, R.legal b m = true →
      ∃ s, R.toSAN b m = some s ∧ R.pushSAN b s = some (R.applyMove b m)) :
    ∀ (ms : List String) (b : B), legalSeq R b ms = true →
      applySans R b ms = (applyAll R b ms, none) := by
  intro ms
  induction ms with
  | nil => intro b _; rfl
  | cons m ms2 ih =>
      intro b hleg
      rw [legalSeq, Bool.and_eq_true] at hleg
      obtain ⟨s, hs1, hs2⟩ := hR b m hleg.1
      simp only [applySans, hs1, hs2, applyAll]
      exact ih _ hleg.2

theorem applySans_append {B S : Type} (R : ChessRules B S)
    (hR : ∀ b m, R.legal b m = true →
      ∃ s, R.toSAN b m = some s ∧ R.pushSAN b s = some (R.applyMove b m)) :
    ∀ (good : List String) (b : B), legalSeq R b good = true →
      ∀ l, applySans R b (good ++ l) = applySans R (applyAll R b good) l := by
  intro good
  induction good with
  | nil => intro b _ l; rfl
  | cons m ms2 ih =>
      intro b hleg l
      rw [legalSeq, Bool.and_eq_true] at hleg
      obtain ⟨s, hs1, hs2⟩ := hR b m hleg.1
      simp only [List.cons_append, applySans, hs1, hs2, applyAll]
      exact ih _ hleg.2 l

/-- C5: for a batch of moves each legal in sequence, `set_position`
leaves the tracked board exactly where independently folding the
collaborator's `applyMove` over the same moves leaves an outside copy
— in particular the FENs agree — and no error is raised: converting
each move through SAN and pushing the SAN does not change the
resulting position. -/
theorem set_position_roundtrip {B S : Type} (R : ChessRules B S) (b : B) (ms : List String)
    (hR : ∀ bb m, R.legal bb m = true →
      ∃ s, R.toSAN bb m = some s ∧ R.pushSAN bb s = some (R.applyMove bb m))
    (hleg : legalSeq R b ms = true) :
    (set_position R b ms).2.1 = applyAll R b ms ∧
    (set_position R b ms).2.2 = none ∧
    R.fen (set_position R b ms).2.1 = R.fen (applyAll R b ms) := by
  have h := applySans_legal R hR ms b hleg
  refine ⟨?_, ?_, ?_⟩ <;> simp [set_position, h]

theorem toyRules_contract :
    ∀ (b : List String) (m : String), toyRules.legal b m = true →
      ∃ s, toyRules.toSAN b m = some s ∧
        toyRules.pushSAN b s = some (toyRules.applyMove b m) := by
  intro b m hm
  have h : m ≠ "bad" := of_decide_eq_true hm
  exact ⟨m, by simp [toyRules, h], by simp [toyRules]⟩

theorem set_position_roundtrip_witness :
    (set_position toyRules [] ["e2e4", "e7e5"]).2.1 = applyAll toyRules [] ["e2e4", "e7e5"] ∧
    (set_position toyRules [] ["e2e4", "e7e5"]).2.2 = none ∧
    toyRules.fen (set_position toyRules [] ["e2e4", "e7e5"]).2.1
      = toyRules.fen (applyAll toyRules [] ["e2e4", "e7e5"]) :=
  set_position_roundtrip toyRules [] ["e2e4", "e7e5"] toyRules_contract (by decide)

/-- C8: when the first collaborator-rejected move of a batch sits at
position `k` (after `good`, before `rest`), `set_position` has already
sent the full `position` command, the tracked board keeps the first `k`
moves applied with no rollback, the moves from `k` on are not applied,
and the surfaced condition is `illegalMove`, a different constructor
from each transport-failure kind. -/
theorem set_position_illegal_aborts {B S : Type} (R : ChessRules B S) (b : B)
    (good rest : List String) (bad : String)
    (hR : ∀ bb m, R.legal bb m = true →
      ∃ s, R.toSAN bb m = some s ∧ R.pushSAN bb s = some (R.applyMove bb m))
    (hleg : legalSeq R b good = true)
    (hbad : R.toSAN (applyAll R b good) bad = none) :
    set_position R b (good ++ bad :: rest)
      = ("position fen " ++ R.fen b ++ " moves " ++ moveListToStr (good ++ bad :: rest),
         applyAll R b good, some .illegalMove) ∧
    (EngineError.illegalMove ≠ .spawnFailure ∧ EngineError.illegalMove ≠ .processTimeout ∧
      EngineError.illegalMove ≠ .processExited) := by
  constructor
  · have h1 := applySans_append R hR good b hleg (bad :: rest)
    have h2 : applySans R (applyAll R b good) (bad :: rest)
        = (applyAll R b good, some .illegalMove) := by
      simp [applySans, hbad]
    simp [set_position, h1, h2]
  · exact ⟨by decide, by decide, by decide⟩

theorem set_position_illegal_aborts_witness :
    set_position toyRules [] ["e2e4", "bad", "e7e5"]
      = ("position fen  moves e2e4 bad e7e5", ["e2e4"], some .illegalMove) ∧
    (EngineError.illegalMove ≠ .spawnFailure ∧ EngineError.illegalMove ≠ .processTimeout ∧
      EngineError.illegalMove ≠ .processExited) := by
  have h := set_position_illegal_aborts toyRules [] ["e2e4"] ["e7e5"] "bad"
    toyRules_contract (by decide) (by decide)
  exact ⟨h.1.trans (by decide), h.2⟩

theorem specAM_of_not_info (sd i : Int) (l : String)
    (h : (pySplit (pyStrip l)).headD "" ≠ "info") : specAnnouncedMove sd i l = none := by
  unfold specAnnouncedMove
  rw [if_neg h]

theorem specAM_of_valSkip (sd i : Int) (l : String)
    (hp : parseDepthPv (pySplit (pyStrip l)) = .valSkip) :
    specAnnouncedMove sd i l = none := by
  unfold specAnnouncedMove
  by_cases hinfo : (pySplit (pyStrip l)).headD "" = "info"
  case neg => rw [if_neg hinfo]
  case pos =>
    rw [if_pos hinfo]
    unfold parseDepthPv at hp
    cases h1 : (pySplit (pyStrip l)).findIdx? (fun t => t = "depth") with
    | none => simp only [h1]
    | some di =>
        simp only [h1] at hp ⊢
        cases h2 : (pySplit (pyStrip l)).get? (di + 1) with
        | none => simp only [h2] at hp; exact TryDepthPv.noConfusion hp
        | some ds =>
            simp only [h2] at hp
            cases h3 : pyIntStr ds with
            | none =>
                cases h4 : (pySplit (pyStrip l)).findIdx? (fun t => t = "multipv") with
                | none => simp only [h4]
                | some mi =>
                    cases h5 : (pySplit (pyStrip l)).findIdx? (fun t => t = "pv") with
                    | none => simp only [h4, h5]
                    | some pi => simp only [h4, h5, h2, h3, Option.some_bind]
            | some d =>
                simp only [h3] at hp
                cases h4 : (pySplit (pyStrip l)).findIdx? (fun t => t = "multipv") with
                | none => simp only [h4]
                | some mi =>
                    simp only [h4] at hp
                    cases h5 : (pySplit (pyStrip l)).get? (mi + 1) with
                    | none => simp only [h5] at hp; exact TryDepthPv.noConfusion hp
                    | some msv =>
                        simp only [h5] at hp
                        cases h6 : pyIntStr msv with
                        | none =>
                            cases h7 : (pySplit (pyStrip l)).findIdx? (fun t => t = "pv") with
                            | none => simp only [h4, h7]
                            | some pi =>
                                simp only [h4, h7, h2, h3, h5, h6, Option.some_bind]
                        | some pv =>
                            simp only [h6] at hp
                            exact TryDepthPv.noConfusion hp

theorem specAM_of_ok (sd i : Int) (l : String) (d pv : Int)
    (hinfo : (pySplit (pyStrip l)).headD "" = "info")
    (hp : parseDepthPv (pySplit (pyStrip l)) = .ok d pv) :
    specAnnouncedMove sd i l =
      if d = sd ∧ pv = i then
        ((pySplit (pyStrip l)).findIdx? (fun t => t = "pv")).bind
          (fun pi => (pySplit (pyStrip l)).get? (pi + 1))
      else none := by
  unfold specAnnouncedMove
  rw [if_pos hinfo]
  unfold parseDepthPv at hp
  cases h1 : (pySplit (pyStrip l)).findIdx? (fun t => t = "depth") with
  | none => simp only [h1] at hp; exact TryDepthPv.noConfusion hp
  | some di =>
      simp only [h1] at hp ⊢
      cases h2 : (pySplit (pyStrip l)).get? (di + 1) with
      | none => simp only [h2] at hp; exact TryDepthPv.noConfusion hp
      | some ds =>
          simp only [h2] at hp
          cases h3 : pyIntStr ds with
          | none => simp only [h3] at hp; exact TryDepthPv.noConfusion hp
          | some dd =>
              simp only [h3] at hp
              cases h4 : (pySplit (pyStrip l)).findIdx? (fun t => t = "multipv") with
              | none => simp only [h4] at hp; exact TryDepthPv.noConfusion hp
              | some mi =>
                  simp only [h4] at hp ⊢
                  cases h5 : (pySplit (pyStrip l)).get? (mi + 1) with
                  | none => simp only [h5] at hp; exact TryDepthPv.noConfusion hp
                  | some msv =>
                      simp only [h5] at hp
                      cases h6 : pyIntStr msv with
                      | none => simp only [h6] at hp; exact TryDepthPv.noConfusion hp
                      | some pvv =>
                          simp only [h6] at hp
                          obtain ⟨hd, hpv⟩ := TryDepthPv.ok.inj hp
                          subst hd
                          subst hpv
                          cases h7 : (pySplit (pyStrip l)).findIdx? (fun t => t = "pv") with
                          | none => simp [h7]
                          | some pi =>
                              simp only [h7, h2, h3, h5, h6, Option.some_bind]
                              cases h8 : (pySplit (pyStrip l)).get? (pi + 1) with
                              | none => simp [h8]
                              | some mv => simp [h8]

theorem bmRun_spec (sd n : Int) : ∀ (lines : List String) (i : Int) (acc ms : List String),
    bmRun sd n lines i acc = some (.ok ms) →
    ∃ t, ms = acc.reverse ++ t ∧ specCollect sd n lines i = some t := by
  intro lines
  induction lines with
  | nil =>
      intro i acc ms h
      unfold bmRun at h
      by_cases hi : i > n
      · rw [if_pos hi] at h
        have h2 := Except.ok.inj (Option.some.inj h)
        refine ⟨[], by rw [← h2, List.append_nil], ?_⟩
        unfold specCollect
        rw [if_pos hi]
      · rw [if_neg hi] at h
        exact absurd h (by simp)
  | cons l ls ih =>
      intro i acc ms h
      unfold bmRun at h
      by_cases hi : i > n
      · rw [if_pos hi] at h
        have h2 := Except.ok.inj (Option.some.inj h)
        refine ⟨[], by rw [← h2, List.append_nil], ?_⟩
        unfold specCollect
        rw [if_pos hi]
      · rw [if_neg hi] at h
        by_cases hinfo : (pySplit (pyStrip l)).headD "" = "info"
        · rw [if_pos hinfo] at h
          have hbm : ¬(pySplit (pyStrip l)).headD "" = "bestmove" := by
            rw [hinfo]
            decide
          cases hp : parseDepthPv (pySplit (pyStrip l)) with
          | crash =>
              simp only [hp] at h
              exact absurd h (by simp)
          | valSkip =>
              simp only [hp] at h
              obtain ⟨t, ht, hspec⟩ := ih i acc ms h
              refine ⟨t, ht, ?_⟩
              unfold specCollect
              rw [if_neg hi, if_neg hbm, specAM_of_valSkip sd i l hp]
              exact hspec
          | ok d pv =>
              simp only [hp] at h
              by_cases hcond : pv = i ∧ d = sd
              · rw [if_pos hcond] at h
                have hok := specAM_of_ok sd i l d pv hinfo hp
                rw [if_pos ⟨hcond.2, hcond.1⟩] at hok
                cases h7 : (pySplit (pyStrip l)).findIdx? (fun t => t = "pv") with
                | none =>
                    simp only [h7] at h
                    exact absurd h (by simp)
                | some pi =>
                    simp only [h7] at h
                    cases h8 : (pySplit (pyStrip l)).get? (pi + 1) with
                    | none =>
                        simp only [h8] at h
                        exact absurd h (by simp)
                    | some mv =>
                        simp only [h8] at h
                        obtain ⟨t, ht, hspec⟩ := ih (i + 1) (mv :: acc) ms h
                        refine ⟨mv :: t, ?_, ?_⟩
                        · rw [ht]
                          simp
                        · unfold specCollect
                          rw [if_neg hi, if_neg hbm]
                          rw [h7, Option.some_bind, h8] at hok
                          rw [hok, hspec]
                          rfl
              · rw [if_neg hcond] at h
                obtain ⟨t, ht, hspec⟩ := ih i acc ms h
                refine ⟨t, ht, ?_⟩
                unfold specCollect
                rw [if_neg hi, if_neg hbm]
                have hok := specAM_of_ok sd i l d pv hinfo hp
                rw [if_neg (fun hx => hcond ⟨hx.2, hx.1⟩)] at hok
                rw [hok]
                exact hspec
        · rw [if_neg hinfo] at h
          by_cases hbm : (pySplit (pyStrip l)).headD "" = "bestmove"
          · rw [if_pos hbm] at h
            have h2 := Except.ok.inj (Option.some.inj h)
            refine ⟨[], by rw [← h2, List.append_nil], ?_⟩
            unfold specCollect
            rw [if_neg hi, if_pos hbm]
          · rw [if_neg hbm] at h
            obtain ⟨t, ht, hspec⟩ := ih i acc ms h
            refine ⟨t, ht, ?_⟩
            unfold specCollect
            rw [if_neg hi, if_neg hbm, specAM_of_not_info sd i l hinfo]
            exact hspec

theorem bmRun_len (sd n : Int) : ∀ (lines : List String) (i : Int) (acc ms : List String),
    bmRun sd n lines i acc = some (.ok ms) →
    ms.length ≤ acc.length + (n - i + 1).toNat := by
  intro lines
  induction lines with
  | nil =>
      intro i acc ms h
      unfold bmRun at h
      by_cases hi : i > n
      · rw [if_pos hi] at h
        have h2 := Except.ok.inj (Option.some.inj h)
        have h3 : ms.length = acc.length := by rw [← h2, List.length_reverse]
        omega
      · rw [if_neg hi] at h
        exact absurd h (by simp)
  | cons l ls ih =>
      intro i acc ms h
      unfold bmRun at h
      by_cases hi : i > n
      · rw [if_pos hi] at h
        have h2 := Except.ok.inj (Option.some.inj h)
        have h3 : ms.length = acc.length := by rw [← h2, List.length_reverse]
        omega
      · rw [if_neg hi] at h
        by_cases hinfo : (pySplit (pyStrip l)).headD "" = "info"
        · rw [if_pos hinfo] at h
          cases hp : parseDepthPv (pySplit (pyStrip l)) with
          | crash =>
              simp only [hp] at h
              exact absurd h (by simp)
          | valSkip =>
              simp only [hp] at h
              exact ih i acc ms h
          | ok d pv =>
              simp only [hp] at h
              by_cases hcond : pv = i ∧ d = sd
              · rw [if_pos hcond] at h
                cases h7 : (pySplit (pyStrip l)).findIdx? (fun t => t = "pv") with
                | none =>
                    simp only [h7] at h
                    exact absurd h (by simp)
                | some pi =>
                    simp only [h7] at h
                    cases h8 : (pySplit (pyStrip l)).get? (pi + 1) with
                    | none =>
                        simp only [h8] at h
                        exact absurd h (by simp)
                    | some mv =>
                        simp only [h8] at h
                        have hlen := ih (i + 1) (mv :: acc) ms h
                        simp only [List.length_cons] at hlen
                        omega
              · rw [if_neg hcond] at h
                exact ih i acc ms h
        · rw [if_neg hinfo] at h
          by_cases hbm : (pySplit (pyStrip l)).headD "" = "bestmove"
          · rw [if_pos hbm] at h
            have h2 := Except.ok.inj (Option.some.inj h)
            have h3 : ms.length = acc.length := by rw [← h2, List.length_reverse]
            omega
          · rw [if_neg hbm] at h
            exact ih i acc ms h

/-- C9 amended: whenever `best_moves` returns a move list (no crash,
no blocking), that list is exactly what a single sequential scan
collects — for each rank `i` from 1, the move of the first line
announcing rank `i` at the configured depth that comes after the line
chosen for rank `i - 1`, stopping early at a `bestmove` line — and its
length never exceeds the `MultiPV` value. -/
theorem best_moves_sequential_ranks (sd n : Int) (lines ms : List String)
    (h : best_moves sd n lines = some (.ok ms)) :
    specCollect sd n lines 1 = some ms ∧ ms.length ≤ n.toNat := by
  obtain ⟨t, ht, hspec⟩ := bmRun_spec sd n lines 1 [] ms h
  have hlen := bmRun_len sd n lines 1 [] ms h
  simp only [List.reverse_nil, List.nil_append] at ht
  subst ht
  refine ⟨hspec, ?_⟩
  simp only [List.length_nil] at hlen
  omega

theorem best_moves_sequential_ranks_witness :
    specCollect 10 2 ["info depth 10 multipv 2 pv a1a2", "info depth 10 multipv 1 pv e2e4",
      "info depth 10 multipv 2 pv h7h8", "bestmove e2e4"] 1 = some ["e2e4", "h7h8"] ∧
    (["e2e4", "h7h8"] : List String).length ≤ (2 : Int).toNat :=
  best_moves_sequential_ranks 10 2
    ["info depth 10 multipv 2 pv a1a2", "info depth 10 multipv 1 pv e2e4",
      "info depth 10 multipv 2 pv h7h8", "bestmove e2e4"] ["e2e4", "h7h8"] (by decide)

/-- C9 counterexample: in this stream the first info line announcing
rank 2 at depth 10 is the opening line, whose pv move is `a1a2`; yet
`best_moves` returns `h7h8` as the rank-2 move, because the loop only
starts looking for rank 2 after the line it selected for rank 1.  So
the i-th element is not "the pv move of the first info line announcing
multipv rank i at exactly the configured depth" of the stream. -/
theorem best_moves_rank_order_counterexample :
    best_moves 10 2 ["info depth 10 multipv 2 pv a1a2", "info depth 10 multipv 1 pv e2e4",
      "info depth 10 multipv 2 pv h7h8", "bestmove e2e4"] = some (.ok ["e2e4", "h7h8"]) ∧
    specAnnouncedMove 10 2 "info depth 10 multipv 2 pv a1a2" = some "a1a2" ∧
    ("h7h8" : String) ≠ "a1a2" := by
  refine ⟨by decide, by decide, by decide⟩
